import Mathlib

/-!
# qingstor/releases: the release index and the mirroring pipeline

A shallow embedding of `src/cmd/release.go`, `src/main.go` and `src/cmd/main.go`.

* Go maps are association lists of entries wrapped in an `Option`: `none` is the nil map
  (reads succeed and find nothing, an assignment panics), `some es` is an allocated map.
  A lookup returns the first entry of the key and an assignment replaces that entry in
  place (or appends a new one), so a key has one visible value, as in a Go map.
  The nested maps of an index are the ones `json.Unmarshal` and `make` allocate, one per
  key, so no two keys share a map object and nested assignment is modelled by writing the
  updated inner map back under its key.
* A pointer is an `Option`: `none` is the nil pointer.
* `log.Fatalf` and run-time panics end the run: functions of the pipeline return a `Res`,
  which carries the state reached when the run stopped.
* The storage service, the hosting platform, the file system and `encoding/json` are
  collaborators outside the repository: they are parameters (`Storager`, `Client`, `Sys`).
-/

namespace Qingstor

/-! ## Go maps -/

/-- The entries of an allocated Go map with string keys. -/
abbrev Entries (V : Type) := List (String × V)

/-- Entry lookup: the value stored at key `k`, if there is one. -/
def Entries.get {V : Type} : Entries V → String → Option V
  | [], _ => none
  | (k', v) :: es, k => if k' = k then some v else Entries.get es k

/-- Entry assignment: replaces the value at `k`, or adds the entry. -/
def Entries.set {V : Type} : Entries V → String → V → Entries V
  | [], k, v => [(k, v)]
  | (k', v') :: es, k, v => if k' = k then (k, v) :: es else (k', v') :: Entries.set es k v

/-- A Go map value: `none` is the nil map. -/
abbrev GoMap (V : Type) := Option (Entries V)

/-- The message of the run-time panic of an assignment into a nil map. -/
def nilMapPanic : String := "assignment to entry in nil map"

/-- The message of the run-time panic of a nil pointer dereference. -/
def nilDerefPanic : String := "invalid memory address or nil pointer dereference"

/-- The comma-ok read `v, ok := m[k]`: `none` when `ok` is false. Reading a nil map finds
nothing. -/
def GoMap.get {V : Type} (m : GoMap V) (k : String) : Option V :=
  match m with
  | none => none
  | some es => es.get k

/-- The assignment `m[k] = v`: panics on a nil map. -/
def GoMap.set {V : Type} (m : GoMap V) (k : String) (v : V) : Except String (GoMap V) :=
  match m with
  | none => .error nilMapPanic
  | some es => .ok (some (es.set k v))

/-- The index expression `m[k]` for a map of maps: the zero value (nil map) when the key is
absent. -/
def GoMap.index {V : Type} (m : GoMap (GoMap V)) (k : String) : GoMap V :=
  (m.get k).getD none

/-! ## `src/cmd/release.go` -/

/-- The type of `Releases.data`: repo => version => filename => download url. -/
abbrev Index := GoMap (GoMap (GoMap String))

instance decEqFiles : DecidableEq (GoMap String) := inferInstance

instance decEqVersions : DecidableEq (GoMap (GoMap String)) := inferInstance

instance decEqIndex : DecidableEq Index := inferInstance

/-- The struct `Releases` of `src/cmd/release.go`. The mutex is not modelled: every run of
the model is sequential. -/
structure Releases where
  data : Index

instance : DecidableEq Releases := fun a b =>
  match a, b with
  | ⟨x⟩, ⟨y⟩ => if h : x = y then isTrue (by rw [h]) else isFalse (fun h' => h (by cases h'; rfl))

/-- `func (r *Releases) Exist(repo, version, filename string) bool`. The receiver is a
pointer; `r.lock.Lock()` dereferences it. The method assigns nothing. -/
def Releases.Exist (r : Option Releases) (repo version filename : String) :
    Except String Bool :=
  match r with
  | none => .error nilDerefPanic
  | some r =>
    if (r.data.get repo).isNone then .ok false
    else if ((r.data.index repo).get version).isNone then .ok false
    else if (((r.data.index repo).index version).get filename).isNone then .ok false
    else .ok true

/-- The nested assignment `d[repo][version] = m`. -/
def setVersion (d : Index) (repo version : String) (m : GoMap String) : Except String Index :=
  match (d.index repo).set version m with
  | .error e => .error e
  | .ok vm => d.set repo vm

/-- The nested assignment `d[repo][version][filename] = url`. -/
def setLeaf (d : Index) (repo version filename url : String) : Except String Index :=
  match ((d.index repo).index version).set filename url with
  | .error e => .error e
  | .ok fm => setVersion d repo version fm

/-- The statements of `Releases.Add` on the map `r.data`: the map after the call and the
panic that ended the call, if any. -/
def addData (d : Index) (repo version filename url : String) : Index × Option String :=
  -- if _, ok := r.data[repo]; !ok { r.data[repo] = make(map[string]map[string]string) }
  match (if (d.get repo).isNone then d.set repo (some []) else .ok d) with
  | .error e => (d, some e)
  | .ok d1 =>
    -- if _, ok := r.data[repo][version]; !ok { r.data[repo][version] = make(map[string]string) }
    match (if ((d1.index repo).get version).isNone then setVersion d1 repo version (some [])
           else .ok d1) with
    | .error e => (d1, some e)
    | .ok d2 =>
      -- r.data[repo][version][filename] = url
      match setLeaf d2 repo version filename url with
      | .error e => (d2, some e)
      | .ok d3 => (d3, none)

/-- `func (r *Releases) Add(repo, version, filename, url string)`: the receiver after the
call and the panic that ended the call, if any. -/
def Releases.Add (r : Option Releases) (repo version filename url : String) :
    Option Releases × Option String :=
  match r with
  | none => (none, some nilDerefPanic)
  | some r =>
    let res := addData r.data repo version filename url
    (some ⟨res.1⟩, res.2)

/-- The URL stored at `(repo, version, filename)`, if the key is in the index. -/
def leaf (d : Index) (repo version filename : String) : Option String :=
  ((d.index repo).index version).get filename

/-- The URL stored at a key of the index behind the pointer `r`. -/
def Releases.leaf (r : Option Releases) (repo version filename : String) : Option String :=
  match r with
  | none => none
  | some r => Qingstor.leaf r.data repo version filename

/-- The specification of `Contains`: `repo` is a key of the index, `version` a key of its
version mapping and `filename` a key of that version's filename mapping. -/
def Contains (d : Index) (repo version filename : String) : Prop :=
  ∃ vm, d.get repo = some vm ∧ ∃ fm, vm.get version = some fm ∧ ∃ u, fm.get filename = some u

/-- The nil levels on the way to a key: the index itself, the version mapping stored at
`p`, or the filename mapping stored at `(p, v)`. A key that is absent is not a nil level. -/
def NilLevel (d : Index) (p v : String) : Prop :=
  d = none ∨ d.get p = some none ∨ (d.index p).get v = some none

instance (d : Index) (p v : String) : Decidable (NilLevel d p v) := by
  unfold NilLevel; infer_instance

/-! ## Collaborators outside the repository -/

/-- The outcomes of `store.Stat(path)` that `listAssets` tells apart: `err == nil`,
`errors.Is(err, services.ErrObjectNotExist)`, and any other error (with its text). -/
inductive StatResult
  | found
  | notExist
  | failed (err : String)
  deriving DecidableEq, Repr

/-- The part of the storage metadata that `listAssets` reads: `meta.Name` and
`meta.GetLocation()` (`none` when the second result is false). -/
structure Metadata where
  name : String
  location : Option String
  deriving DecidableEq, Repr

/-- The storage service behind the package variable `store`, over bucket states `σ`:
`store.Metadata()`, `store.Stat(path)` and `store.Write(path, r, pairs.WithSize(n))`, which
gives an error or the bucket after the upload of the content `r` of length `n`. -/
structure Storager (σ : Type) where
  metadata : σ → Except String Metadata
  stat : σ → String → StatResult
  write : σ → String → String → Nat → Except String σ

/-- What the pipeline reads of a `github.RepositoryRelease`: `GetID()` and `GetTagName()`. -/
structure RepositoryRelease where
  id : Int
  tagName : String
  deriving DecidableEq, Repr

/-- What the pipeline reads of a `github.ReleaseAsset`: `GetName()` and
`GetBrowserDownloadURL()`. -/
structure ReleaseAsset where
  name : String
  browserDownloadURL : String
  deriving DecidableEq, Repr

/-- The hosting platform behind the package variable `client`:
`Repositories.GetLatestRelease(ctx, owner, repo)`,
`Repositories.ListReleases(ctx, owner, repo, &ListOptions{Page: page})` with the
`NextPage` of its response, and
`Repositories.ListReleaseAssets(ctx, owner, repo, id, &ListOptions{PerPage: perPage})`. -/
structure Client where
  getLatestRelease : String → String → Except String RepositoryRelease
  listReleases : String → String → Int → Except String (List RepositoryRelease × Int)
  listReleaseAssets : String → String → Int → Int → Except String (List ReleaseAsset)

/-- The operating system and the standard library: `ioutil.ReadFile`, `json.Unmarshal` into
the nil map of a new `Releases`, `json.Marshal`, `ioutil.WriteFile` (its error),
`coreutils.OpenStorager` (its error), `ioutil.TempFile` (its error), `http.Get` (the body)
and `io.Copy` (the number of bytes copied). -/
structure Sys where
  readFile : String → Except String String
  unmarshal : String → Except String Index
  marshal : Index → Except String String
  writeFile : String → String → Option String
  openStorager : Option String
  tempFile : Option String
  httpGet : String → Except String String
  ioCopy : String → Except String Nat

/-! ## The state of a run -/

/-- How a run stops before its end: `log.Fatalf` or a run-time panic, with the message. -/
inductive Exit
  | fatal (msg : String)
  | panic (msg : String)
  deriving DecidableEq, Repr

/-- The state of a run: the package variable `data` (a pointer), the bucket behind `store`,
and the log of the calls of `store.Write` (paths), of `http.Get` (URLs) and of
`ioutil.WriteFile` (name and content), each in call order. -/
structure State (σ : Type) where
  data : Option Releases
  store : σ
  writes : List String
  gets : List String
  files : List (String × String)

/-- The result of a function of the pipeline: it returns `a` in state `st`, or the run stops
in state `st`. -/
inductive Res (σ : Type) (α : Type)
  | ok (a : α) (st : State σ)
  | halt (e : Exit) (st : State σ)

/-- The state the run stopped or returned in. -/
def Res.state {σ α : Type} : Res σ α → State σ
  | .ok _ st => st
  | .halt _ st => st

/-- The state at process start over the bucket `s`: `data` is nil, nothing has been called. -/
def init {σ : Type} (s : σ) : State σ := ⟨none, s, [], [], []⟩

/-! ## The pipeline: code shared by `src/main.go` and `src/cmd/main.go` -/

/-- `fmt.Sprintf("%s/%s/%s", repo, release.GetTagName(), asset.GetName())`. -/
def targetPath (repo tag name : String) : String :=
  repo ++ "/" ++ tag ++ "/" ++ name

/-- `fmt.Sprintf("https://%s.%s.qingstor.com/%s", meta.Name, location, path)`. -/
def publicURL (bucket location path : String) : String :=
  "https://" ++ bucket ++ "." ++ location ++ ".qingstor.com/" ++ path

/-- `downloadAndUpload` (`src/main.go` 138-167, `src/cmd/main.go` 149-176; the two differ
in `log.Printf` lines only). -/
def downloadAndUpload {σ : Type} (S : Storager σ) (sys : Sys) (asset : ReleaseAsset)
    (path : String) (st : State σ) : Res σ Unit :=
  match sys.tempFile with
  | some e => .halt (.fatal ("get tempfile: " ++ e)) st
  | none =>
    let st1 := { st with gets := st.gets ++ [asset.browserDownloadURL] }
    match sys.httpGet asset.browserDownloadURL with
    | .error e => .halt (.fatal ("get asset content: " ++ e)) st1
    | .ok body =>
      match sys.ioCopy body with
      | .error e => .halt (.fatal ("write asset content to local: " ++ e)) st1
      | .ok n =>
        let st2 := { st1 with writes := st1.writes ++ [path] }
        match S.write st2.store path body n with
        | .error e => .halt (.fatal ("upload to qingstor: " ++ e)) st2
        | .ok s => .ok () { st2 with store := s }

/-- The call `data.Add(repo, tag, name, url)` on the package variable `data`. -/
def record {σ : Type} (repo tag name url : String) (st : State σ) : Res σ Unit :=
  match Releases.Add st.data repo tag name url with
  | (r, none) => .ok () { st with data := r }
  | (r, some e) => .halt (.panic e) { st with data := r }

/-- The body of the loop `for _, asset := range assets` (`src/main.go` 115-131, inside a
goroutine that the loop waits for before its next iteration; `src/cmd/main.go` 131-144). -/
def mirrorAsset {σ : Type} (S : Storager σ) (sys : Sys) (m : Metadata) (location repo : String)
    (release : RepositoryRelease) (asset : ReleaseAsset) (st : State σ) : Res σ Unit :=
  let path := targetPath repo release.tagName asset.name
  let url := publicURL m.name location path
  match S.stat st.store path with
  | .notExist =>
    -- err != nil && errors.Is(err, services.ErrObjectNotExist)
    match downloadAndUpload S sys asset path st with
    | .halt e st1 => .halt e st1
    | .ok _ st1 => record repo release.tagName asset.name url st1
  | .failed e => .halt (.fatal ("storage stat: " ++ e)) st
  | .found => record repo release.tagName asset.name url st

/-- The loop `for _, asset := range assets` of both `listAssets`. -/
def forAssets {σ : Type} (S : Storager σ) (sys : Sys) (m : Metadata) (location repo : String)
    (release : RepositoryRelease) : List ReleaseAsset → State σ → Res σ Unit
  | [], st => .ok () st
  | asset :: rest, st =>
    match mirrorAsset S sys m location repo release asset st with
    | .halt e st1 => .halt e st1
    | .ok _ st1 => forAssets S sys m location repo release rest st1

/-- The end of `main` in both files: `json.Marshal(data.data)`, then `ioutil.WriteFile`. -/
def persist {σ : Type} (sys : Sys) (dataFile : String) (st : State σ) : Res σ Unit :=
  match st.data with
  | none => .halt (.panic nilDerefPanic) st
  | some r =>
    match sys.marshal r.data with
    | .error e => .halt (.fatal ("json marshal: " ++ e)) st
    | .ok content =>
      match sys.writeFile dataFile content with
      | some e => .halt (.fatal ("write file: " ++ e)) st
      | none => .ok () { st with files := st.files ++ [(dataFile, content)] }

/-- The value of the package variable `repos` in both files. -/
def repos : List String := ["qsctl"]

/-! ## `src/main.go` -/

namespace Root

/-- `const dataFile = "data.json"`. -/
def dataFile : String := "data.json"

/-- `setup` of `src/main.go`: `data = &Releases{}` assigns the package variable. -/
def setup {σ : Type} (sys : Sys) (st : State σ) : Res σ Unit :=
  let st1 := { st with data := some ⟨none⟩ }
  match sys.readFile dataFile with
  | .error e => .halt (.fatal ("read file: " ++ e)) st1
  | .ok content =>
    match sys.unmarshal content with
    | .error e => .halt (.fatal ("json unmarshal: " ++ e)) st1
    | .ok idx =>
      let st2 := { st1 with data := some ⟨idx⟩ }
      match sys.openStorager with
      | some e => .halt (.fatal ("open storager: " ++ e)) st2
      | none => .ok () st2

/-- `listReleases` of `src/main.go`: the latest release only. -/
def listReleases {σ : Type} (client : Client) (repo : String) (st : State σ) :
    Res σ RepositoryRelease :=
  match client.getLatestRelease "qingstor" repo with
  | .error e => .halt (.fatal ("list releases: " ++ e)) st
  | .ok release => .ok release st

/-- `listAssets` of `src/main.go`. -/
def listAssets {σ : Type} (S : Storager σ) (sys : Sys) (client : Client) (repo : String)
    (release : RepositoryRelease) (st : State σ) : Res σ Unit :=
  match S.metadata st.store with
  | .error e => .halt (.fatal ("storage meta: " ++ e)) st
  | .ok m =>
    match m.location with
    | none => .halt (.fatal "storage doesn't know location") st
    | some location =>
      match client.listReleaseAssets "qingstor" repo release.id 100 with
      | .error e => .halt (.fatal ("list assets: " ++ e)) st
      | .ok assets => forAssets S sys m location repo release assets st

/-- The loop `for _, v := range repos` of `main` in `src/main.go`. -/
def forRepos {σ : Type} (S : Storager σ) (sys : Sys) (client : Client) :
    List String → State σ → Res σ Unit
  | [], st => .ok () st
  | v :: rest, st =>
    match listReleases client v st with
    | .halt e st1 => .halt e st1
    | .ok release st1 =>
      match listAssets S sys client v release st1 with
      | .halt e st2 => .halt e st2
      | .ok _ st2 => forRepos S sys client rest st2

/-- `main` of `src/main.go`. The package variable `repos` is the parameter `rs`. -/
def main {σ : Type} (S : Storager σ) (sys : Sys) (client : Client) (rs : List String)
    (st : State σ) : Res σ Unit :=
  match setup sys st with
  | .halt e st1 => .halt e st1
  | .ok _ st1 =>
    match forRepos S sys client rs st1 with
    | .halt e st2 => .halt e st2
    | .ok _ st2 => persist sys dataFile st2

end Root

/-! ## `src/cmd/main.go` -/

namespace Cmd

/-- `const dataFile = "site/data.json"`. -/
def dataFile : String := "site/data.json"

/-- `setup` of `src/cmd/main.go`: `data := &Releases{}` declares a local variable, the
document is unmarshalled into it, and the package variable `data` keeps its value. -/
def setup {σ : Type} (sys : Sys) (st : State σ) : Res σ Unit :=
  match sys.readFile "site/data.json" with
  | .error e => .halt (.fatal ("read file: " ++ e)) st
  | .ok content =>
    match sys.unmarshal content with
    | .error e => .halt (.fatal ("json unmarshal: " ++ e)) st
    | .ok _ =>
      match sys.openStorager with
      | some e => .halt (.fatal ("open storager: " ++ e)) st
      | none => .ok () st

/-- How the goroutine of `listReleases` ends: it closes the channel, it stops the run with
`log.Fatalf`, or it is still running when the fuel of the model is used up. -/
inductive ChanEnd
  | closed
  | fatal (msg : String)
  | running
  deriving DecidableEq, Repr

/-- What the goroutine of `listReleases` does: the releases it sends on the channel, the
pages it requests, both in order, and how it ends. -/
structure Channel where
  sent : List RepositoryRelease
  pages : List Int
  ending : ChanEnd
  deriving DecidableEq, Repr

/-- The loop `for { ... }` of the goroutine of `listReleases`, from page `page`, for at most
`fuel` requests. -/
def listReleasesLoop (client : Client) (repo : String) : Nat → Int → Channel
  | 0, _ => ⟨[], [], .running⟩
  | fuel + 1, page =>
    match client.listReleases "qingstor" repo page with
    | .error e => ⟨[], [page], .fatal ("list releases: " ++ e)⟩
    | .ok (releases, nextPage) =>
      if nextPage = 0 then ⟨releases, [page], .closed⟩
      else
        let c := listReleasesLoop client repo fuel nextPage
        ⟨releases ++ c.sent, page :: c.pages, c.ending⟩

/-- `listReleases` of `src/cmd/main.go`: `page := 1`, then the goroutine. -/
def listReleases (client : Client) (repo : String) (fuel : Nat) : Channel :=
  listReleasesLoop client repo fuel 1

/-- The loop `for release := range ch` of `listAssets` over the releases received. -/
def forReleases {σ : Type} (S : Storager σ) (sys : Sys) (client : Client) (m : Metadata)
    (location repo : String) : List RepositoryRelease → State σ → Res σ Unit
  | [], st => .ok () st
  | release :: rest, st =>
    match client.listReleaseAssets "qingstor" repo release.id 100 with
    | .error e => .halt (.fatal ("list assets: " ++ e)) st
    | .ok assets =>
      match forAssets S sys m location repo release assets st with
      | .halt e st1 => .halt e st1
      | .ok _ st1 => forReleases S sys client m location repo rest st1

/-- `listAssets` of `src/cmd/main.go`, in the schedule where the receiver takes every
release the goroutine sends before the goroutine's end is felt. The result is `none` when
the receiver waits for a goroutine that is still running. -/
def listAssets {σ : Type} (S : Storager σ) (sys : Sys) (client : Client) (repo : String)
    (ch : Channel) (st : State σ) : Option (Res σ Unit) :=
  match S.metadata st.store with
  | .error e => some (.halt (.fatal ("storage meta: " ++ e)) st)
  | .ok m =>
    match m.location with
    | none => some (.halt (.fatal "storage doesn't know location") st)
    | some location =>
      match forReleases S sys client m location repo ch.sent st with
      | .halt e st1 => some (.halt e st1)
      | .ok _ st1 =>
        match ch.ending with
        | .closed => some (.ok () st1)
        | .fatal msg => some (.halt (.fatal msg) st1)
        | .running => none

/-- The loop `for _, v := range repos` of `main` in `src/cmd/main.go`. -/
def forRepos {σ : Type} (S : Storager σ) (sys : Sys) (client : Client) (fuel : Nat) :
    List String → State σ → Option (Res σ Unit)
  | [], st => some (.ok () st)
  | v :: rest, st =>
    match listAssets S sys client v (listReleases client v fuel) st with
    | none => none
    | some (.halt e st1) => some (.halt e st1)
    | some (.ok _ st1) => forRepos S sys client fuel rest st1

/-- `main` of `src/cmd/main.go`. The package variable `repos` is the parameter `rs`. -/
def main {σ : Type} (S : Storager σ) (sys : Sys) (client : Client) (fuel : Nat)
    (rs : List String) (st : State σ) : Option (Res σ Unit) :=
  match setup sys st with
  | .halt e st1 => some (.halt e st1)
  | .ok _ st1 =>
    match forRepos S sys client fuel rs st1 with
    | none => none
    | some (.halt e st2) => some (.halt e st2)
    | some (.ok _ st2) => some (persist sys dataFile st2)

end Cmd

/-! ## Specification-side definitions -/

/-- The exit that stopped the run, if the run stopped. -/
def Res.exit {σ α : Type} : Res σ α → Option Exit
  | .ok _ _ => none
  | .halt e _ => some e

/-- The message with which loading the persisted document at `path` fails: the file cannot
be read, or `json.Unmarshal` rejects its content. `none` when the document loads. -/
def loadError (sys : Sys) (path : String) : Option String :=
  match sys.readFile path with
  | .error e => some ("read file: " ++ e)
  | .ok content =>
    match sys.unmarshal content with
    | .error e => some ("json unmarshal: " ++ e)
    | .ok _ => none

/-- The hosting platform serves the chain of pages `chain` of `repo` from page `page`: the
response for each page holds the releases of the page and the number of the next page, which
is 0 in the last response and only there. -/
def ServesChain (client : Client) (repo : String) :
    Int → List (List RepositoryRelease × Int) → Prop
  | _, [] => False
  | page, [(rs, next)] => client.listReleases "qingstor" repo page = .ok (rs, next) ∧ next = 0
  | page, (rs, next) :: r :: rest =>
    client.listReleases "qingstor" repo page = .ok (rs, next) ∧ next ≠ 0 ∧
      ServesChain client repo next (r :: rest)

/-- The releases of the pages of a chain, concatenated in page order. -/
def chainReleases : List (List RepositoryRelease × Int) → List RepositoryRelease
  | [] => []
  | (rs, _) :: rest => rs ++ chainReleases rest

/-- The page numbers of a chain that starts at `page`. -/
def chainPages : Int → List (List RepositoryRelease × Int) → List Int
  | _, [] => []
  | page, (_, next) :: rest => page :: chainPages next rest

/-- The laws of a storage service that keeps what it is given: after a `Write` that
succeeded, `Stat` finds the object written and every object it found before, and the
metadata of the bucket is what it was. -/
structure StoreLaws {σ : Type} (S : Storager σ) : Prop where
  write_found : ∀ s path body n s1, S.write s path body n = .ok s1 → S.stat s1 path = .found
  write_keeps : ∀ s path body n s1 q, S.write s path body n = .ok s1 →
    S.stat s q = .found → S.stat s1 q = .found
  write_meta : ∀ s path body n s1, S.write s path body n = .ok s1 →
    S.metadata s1 = S.metadata s

/-- The asset `(repo, tag, name)` is mirrored in state `st`, for the bucket metadata `m` and
location: its target path is found in storage and the index holds its constructed URL. -/
def Mirrored {σ : Type} (S : Storager σ) (m : Metadata) (location : String) (st : State σ)
    (repo tag name : String) : Prop :=
  S.stat st.store (targetPath repo tag name) = .found ∧
  Releases.leaf st.data repo tag name
    = some (publicURL m.name location (targetPath repo tag name))

/-- State `st1` advances state `st`: the bucket has the same metadata and every object found
before, no file was written in between, and every key that held the URL constructed from the
metadata holds it still. -/
def Adv {σ : Type} (S : Storager σ) (st st1 : State σ) : Prop :=
  S.metadata st1.store = S.metadata st.store ∧
  (∀ q, S.stat st.store q = .found → S.stat st1.store q = .found) ∧
  st1.files = st.files ∧
  (∀ m location, S.metadata st.store = .ok m → m.location = some location →
    ∀ p v f, Releases.leaf st.data p v f = some (publicURL m.name location (targetPath p v f)) →
      Releases.leaf st1.data p v f = some (publicURL m.name location (targetPath p v f)))

/-- Every repository of `rs` is settled in state `st`: its latest release and the assets of
that release are listed, the bucket knows its location, and every asset is mirrored. -/
def Settled {σ : Type} (S : Storager σ) (client : Client) (rs : List String) (st : State σ) :
    Prop :=
  ∀ v ∈ rs, ∃ release m location assets,
    client.getLatestRelease "qingstor" v = .ok release ∧
    S.metadata st.store = .ok m ∧ m.location = some location ∧
    client.listReleaseAssets "qingstor" v release.id 100 = .ok assets ∧
    ∀ a ∈ assets, Mirrored S m location st v release.tagName a.name

/-- The operating system of a second run: the persisted document is `content`. -/
def rerunSys (sys : Sys) (content : String) : Sys :=
  { sys with readFile := fun _ => .ok content }

/-- From index `d` to index `d1` no key is removed, and a key holds the URL it held or the
URL constructed for it from the bucket name `m.name`, the location and its target path. -/
def Keeps (m : Metadata) (location : String) (d d1 : Option Releases) : Prop :=
  ∀ p v f u, Releases.leaf d p v f = some u →
    Releases.leaf d1 p v f = some u ∨
    Releases.leaf d1 p v f = some (publicURL m.name location (targetPath p v f))

/-! ## Stubs of the collaborators -/

/-- A bucket stub over the list of the paths it holds, with fixed metadata: `Stat` fails with
"permission denied" on the paths of `denied`, `Write` stores the path. -/
def stubStorager (name : String) (location : Option String) (denied : List String) :
    Storager (List String) where
  metadata := fun _ => .ok ⟨name, location⟩
  stat := fun s path =>
    if path ∈ denied then .failed "permission denied"
    else if path ∈ s then .found else .notExist
  write := fun s path _ _ => .ok (path :: s)

/-- A hosting-platform stub from tables; what is not in a table is "404 Not Found". -/
def stubClient (latest : List (String × RepositoryRelease))
    (pages : List ((String × Int) × (List RepositoryRelease × Int)))
    (assets : List ((String × Int) × List ReleaseAsset)) : Client where
  getLatestRelease := fun _ repo =>
    match latest.lookup repo with
    | some r => .ok r
    | none => .error "404 Not Found"
  listReleases := fun _ repo page =>
    match pages.lookup (repo, page) with
    | some r => .ok r
    | none => .error "404 Not Found"
  listReleaseAssets := fun _ repo id _ =>
    match assets.lookup (repo, id) with
    | some r => .ok r
    | none => .error "404 Not Found"

/-- A stub of the operating system: the persisted document is `file` (an error when it
cannot be read), the JSON codec knows the documents of the table `docs`, a download gives the
body "bytes", and nothing else fails. -/
def stubSys (file : Except String String) (docs : List (String × Index)) : Sys where
  readFile := fun _ => file
  unmarshal := fun content =>
    match docs.lookup content with
    | some idx => .ok idx
    | none =>
      if content = "" then .error "unexpected end of JSON input"
      else .error "invalid character"
  marshal := fun idx =>
    match docs.find? (fun d => decide (d.2 = idx)) with
    | some d => .ok d.1
    | none => .error "unsupported value"
  writeFile := fun _ _ => none
  openStorager := none
  tempFile := none
  httpGet := fun _ => .ok "bytes"
  ioCopy := fun body => .ok body.length

/-- The URL the pipeline constructs for `demo.zip` in the bucket `bucket` at `pek3a`. -/
def demoURL : String := "https://bucket.pek3a.qingstor.com/demo/v1.0.0/demo.zip"

/-- The index `{"demo": {"v1.0.0": {"demo.zip": demoURL}}}`. -/
def demoIndex : Index := some [("demo", some [("v1.0.0", some [("demo.zip", demoURL)])])]

/-- The index `{"demo": {"v1.0.0": {"demo.zip": "https://x/old"}}}`. -/
def oldIndex : Index := some [("demo", some [("v1.0.0", some [("demo.zip", "https://x/old")])])]

/-- The documents of the stub codec. -/
def demoDocs : List (String × Index) :=
  [("{}", some []), ("demo-document", demoIndex), ("old-document", oldIndex)]

/-- The hosting platform of the scenario: project `demo`, one release `v1.0.0` (the latest,
alone on page 1), one asset `demo.zip`. -/
def demoClient : Client :=
  stubClient [("demo", ⟨1, "v1.0.0"⟩)] [(("demo", 1), ([⟨1, "v1.0.0"⟩], 0))]
    [(("demo", 1), [⟨"demo.zip", "https://github.com/qingstor/demo/demo.zip"⟩])]

/-- The bucket of the scenario: named `bucket`, located at `pek3a`, no `Stat` failure. -/
def demoStore : Storager (List String) := stubStorager "bucket" (some "pek3a") []

/-- A hosting platform with three pages of one release each, with next pages 2, 3, 0. -/
def threePages : Client :=
  stubClient []
    [(("qsctl", 1), ([⟨11, "v3"⟩], 2)), (("qsctl", 2), ([⟨12, "v2"⟩], 3)),
      (("qsctl", 3), ([⟨13, "v1"⟩], 0))] []

/-- The release of the scenario. -/
def demoRelease : RepositoryRelease := ⟨1, "v1.0.0"⟩

/-- The asset of the scenario. -/
def demoAsset : ReleaseAsset := ⟨"demo.zip", "https://github.com/qingstor/demo/demo.zip"⟩

/-- The metadata of the bucket of the scenario. -/
def demoMeta : Metadata := ⟨"bucket", some "pek3a"⟩

/-- The operating system of the scenario: the persisted document is `{}`. -/
def demoSys : Sys := stubSys (.ok "{}") demoDocs

/-- A state in which `demo.zip` is in the bucket and the index is empty. -/
def storedState : State (List String) :=
  ⟨some ⟨some []⟩, ["demo/v1.0.0/demo.zip"], [], [], []⟩

/-- A bucket on which `Stat` of the path of `demo.zip` fails with "permission denied". -/
def deniedStore : Storager (List String) :=
  stubStorager "bucket" (some "pek3a") ["demo/v1.0.0/demo.zip"]

/-- A state with an empty bucket and an empty index. -/
def emptyState : State (List String) := ⟨some ⟨some []⟩, [], [], [], []⟩

/-- The state at the end of the run of the scenario in `src/main.go`. -/
def demoFinal : State (List String) :=
  ⟨some ⟨demoIndex⟩, ["demo/v1.0.0/demo.zip"], ["demo/v1.0.0/demo.zip"],
    ["https://github.com/qingstor/demo/demo.zip"], [("data.json", "demo-document")]⟩

/-- The operating system of a run whose persisted document holds `demo.zip` under the URL
`https://x/old`. -/
def oldSys : Sys := stubSys (.ok "old-document") demoDocs

/-- A state in which `demo.zip` is in the bucket and the index holds it under the URL
`https://x/old`. -/
def oldState : State (List String) :=
  ⟨some ⟨oldIndex⟩, ["demo/v1.0.0/demo.zip"], [], [], []⟩

/-! ## Lemmas on Go maps -/

theorem Entries.get_set_self {V : Type} (es : Entries V) (k : String) (v : V) :
    (es.set k v).get k = some v := by
  induction es with
  | nil => simp [Entries.set, Entries.get]
  | cons e es ih =>
    obtain ⟨k', v'⟩ := e
    by_cases h : k' = k <;> simp [Entries.set, Entries.get, h, ih]

theorem Entries.get_set_ne {V : Type} (es : Entries V) (k k' : String) (v : V) (h : k' ≠ k) :
    (es.set k v).get k' = es.get k' := by
  induction es with
  | nil => simp [Entries.set, Entries.get, Ne.symm h]
  | cons e es ih =>
    obtain ⟨k₀, v₀⟩ := e
    by_cases h₀ : k₀ = k
    · subst h₀
      simp [Entries.set, Entries.get, Ne.symm h]
    · by_cases h₁ : k₀ = k'
      · subst h₁
        simp [Entries.set, Entries.get, h]
      · simp [Entries.set, Entries.get, h₀, h₁, ih]

theorem Entries.set_eq_self {V : Type} (es : Entries V) (k : String) (v : V)
    (h : es.get k = some v) : es.set k v = es := by
  induction es with
  | nil => simp [Entries.get] at h
  | cons e es ih =>
    obtain ⟨k₀, v₀⟩ := e
    by_cases h₀ : k₀ = k
    · subst h₀
      simp [Entries.get] at h
      simp [Entries.set, h]
    · simp [Entries.get, h₀] at h
      simp [Entries.set, h₀, ih h]

/-- When `Add` panics, no assignment has been made: the map is the one before the call. -/
theorem addData_panic (d : Index) (p v f u e : String) (h : (addData d p v f u).2 = some e) :
    (addData d p v f u).1 = d := by
  cases d with
  | none => simp [addData, GoMap.get, GoMap.set]
  | some es =>
    cases hp : es.get p with
    | none =>
      simp [addData, GoMap.get, GoMap.set, GoMap.index, setVersion, setLeaf, hp,
        Entries.get_set_self, Entries.get, Entries.set] at h
    | some vm =>
      cases vm with
      | none => simp [addData, GoMap.get, GoMap.set, GoMap.index, setVersion, setLeaf, hp]
      | some vs =>
        cases hv : vs.get v with
        | none =>
          simp [addData, GoMap.get, GoMap.set, GoMap.index, setVersion, setLeaf, hp, hv,
            Entries.get_set_self, Entries.get, Entries.set] at h
        | some fm =>
          cases fm with
          | none =>
            simp [addData, GoMap.get, GoMap.set, GoMap.index, setVersion, setLeaf, hp, hv]
          | some fs =>
            simp [addData, GoMap.get, GoMap.set, GoMap.index, setVersion, setLeaf, hp, hv] at h

/-- `Add` panics exactly when a level on the way to the key is a nil map. -/
theorem addData_ok_iff (d : Index) (p v f u : String) :
    (addData d p v f u).2 = none ↔ ¬ NilLevel d p v := by
  cases d with
  | none => simp [addData, GoMap.get, GoMap.set, NilLevel]
  | some es =>
    cases hp : es.get p with
    | none =>
      simp [addData, GoMap.get, GoMap.set, GoMap.index, setVersion, setLeaf, hp,
        Entries.get_set_self, Entries.get, Entries.set, NilLevel]
    | some vm =>
      cases vm with
      | none =>
        simp [addData, GoMap.get, GoMap.set, GoMap.index, setVersion, setLeaf, hp, NilLevel]
      | some vs =>
        cases hv : vs.get v with
        | none =>
          simp [addData, GoMap.get, GoMap.set, GoMap.index, setVersion, setLeaf, hp, hv,
            Entries.get_set_self, Entries.get, Entries.set, NilLevel]
        | some fm =>
          cases fm with
          | none =>
            simp [addData, GoMap.get, GoMap.set, GoMap.index, setVersion, setLeaf, hp, hv,
              NilLevel]
          | some fs =>
            simp [addData, GoMap.get, GoMap.set, GoMap.index, setVersion, setLeaf, hp, hv,
              NilLevel]

/-- The leaves after an `Add` that did not panic: the key of the call holds the URL of the
call, every other key holds what it held. -/
theorem leaf_addData (d : Index) (p v f u : String) (hok : (addData d p v f u).2 = none)
    (p' v' f' : String) :
    leaf (addData d p v f u).1 p' v' f' =
      if p' = p ∧ v' = v ∧ f' = f then some u else leaf d p' v' f' := by
  cases d with
  | none => simp [addData, GoMap.get, GoMap.set] at hok
  | some es =>
    cases hp : es.get p with
    | none =>
      by_cases h1 : p' = p
      · subst h1
        by_cases h2 : v' = v
        · subst h2
          by_cases h3 : f' = f
          · subst h3
            simp [addData, GoMap.get, GoMap.set, GoMap.index, setVersion, setLeaf, hp,
              Entries.get_set_self, Entries.get, Entries.set, leaf]
          · simp [addData, GoMap.get, GoMap.set, GoMap.index, setVersion, setLeaf, hp,
              Entries.get_set_self, Entries.get, Entries.set, leaf, h3, Ne.symm h3]
        · simp [addData, GoMap.get, GoMap.set, GoMap.index, setVersion, setLeaf, hp,
            Entries.get_set_self, Entries.get, Entries.set, leaf, h2, Ne.symm h2]
      · simp [addData, GoMap.get, GoMap.set, GoMap.index, setVersion, setLeaf, hp,
          Entries.get_set_self, Entries.get_set_ne, Entries.get, Entries.set, leaf, h1]
    | some vm =>
      cases vm with
      | none =>
        simp [addData, GoMap.get, GoMap.set, GoMap.index, setVersion, setLeaf, hp] at hok
      | some vs =>
        cases hv : vs.get v with
        | none =>
          by_cases h1 : p' = p
          · subst h1
            by_cases h2 : v' = v
            · subst h2
              by_cases h3 : f' = f
              · subst h3
                simp [addData, GoMap.get, GoMap.set, GoMap.index, setVersion, setLeaf, hp, hv,
                  Entries.get_set_self, Entries.get, Entries.set, leaf]
              · simp [addData, GoMap.get, GoMap.set, GoMap.index, setVersion, setLeaf, hp, hv,
                  Entries.get_set_self, Entries.get, Entries.set, leaf, h3, Ne.symm h3]
            · simp [addData, GoMap.get, GoMap.set, GoMap.index, setVersion, setLeaf, hp, hv,
                Entries.get_set_self, Entries.get_set_ne, Entries.get, Entries.set, leaf, h2]
          · simp [addData, GoMap.get, GoMap.set, GoMap.index, setVersion, setLeaf, hp, hv,
              Entries.get_set_self, Entries.get_set_ne, Entries.get, Entries.set, leaf, h1]
        | some fm =>
          cases fm with
          | none =>
            simp [addData, GoMap.get, GoMap.set, GoMap.index, setVersion, setLeaf, hp, hv]
              at hok
          | some fs =>
            by_cases h1 : p' = p
            · subst h1
              by_cases h2 : v' = v
              · subst h2
                by_cases h3 : f' = f
                · subst h3
                  simp [addData, GoMap.get, GoMap.set, GoMap.index, setVersion, setLeaf, hp,
                    hv, Entries.get_set_self, leaf]
                · simp [addData, GoMap.get, GoMap.set, GoMap.index, setVersion, setLeaf, hp,
                    hv, Entries.get_set_self, Entries.get_set_ne, leaf, h3]
              · simp [addData, GoMap.get, GoMap.set, GoMap.index, setVersion, setLeaf, hp, hv,
                  Entries.get_set_self, Entries.get_set_ne, leaf, h2]
            · simp [addData, GoMap.get, GoMap.set, GoMap.index, setVersion, setLeaf, hp, hv,
                Entries.get_set_self, Entries.get_set_ne, leaf, h1]

/-- Adding a key that already holds the URL leaves the map as it is. -/
theorem addData_same (d : Index) (p v f u : String) (h : leaf d p v f = some u) :
    addData d p v f u = (d, none) := by
  cases d with
  | none => simp [leaf, GoMap.index, GoMap.get] at h
  | some es =>
    cases hp : es.get p with
    | none => simp [leaf, GoMap.index, GoMap.get, hp] at h
    | some vm =>
      cases vm with
      | none => simp [leaf, GoMap.index, GoMap.get, hp] at h
      | some vs =>
        cases hv : vs.get v with
        | none => simp [leaf, GoMap.index, GoMap.get, hp, hv] at h
        | some fm =>
          cases fm with
          | none => simp [leaf, GoMap.index, GoMap.get, hp, hv] at h
          | some fs =>
            simp [leaf, GoMap.index, GoMap.get, hp, hv] at h
            simp [addData, GoMap.get, GoMap.set, GoMap.index, setVersion, setLeaf, hp, hv,
              Entries.set_eq_self _ _ _ h, Entries.set_eq_self _ _ _ hv,
              Entries.set_eq_self _ _ _ hp]

/-- `Exist` on an allocated `Releases` returns whether the key holds a URL. -/
theorem exist_eq_leaf (d : Index) (p v f : String) :
    Releases.Exist (some ⟨d⟩) p v f = .ok (leaf d p v f).isSome := by
  cases d with
  | none => simp [Releases.Exist, leaf, GoMap.get, GoMap.index]
  | some es =>
    cases hp : es.get p with
    | none => simp [Releases.Exist, leaf, GoMap.get, GoMap.index, hp]
    | some vm =>
      cases vm with
      | none => simp [Releases.Exist, leaf, GoMap.get, GoMap.index, hp]
      | some vs =>
        cases hv : vs.get v with
        | none => simp [Releases.Exist, leaf, GoMap.get, GoMap.index, hp, hv]
        | some fm =>
          cases fm with
          | none => simp [Releases.Exist, leaf, GoMap.get, GoMap.index, hp, hv]
          | some fs =>
            cases hf : fs.get f <;>
              simp [Releases.Exist, leaf, GoMap.get, GoMap.index, hp, hv, hf]

/-- A key holds a URL exactly when it is contained at all three levels. -/
theorem leaf_isSome_iff (d : Index) (p v f : String) :
    (leaf d p v f).isSome = true ↔ Contains d p v f := by
  cases d with
  | none => simp [Contains, leaf, GoMap.get, GoMap.index]
  | some es =>
    cases hp : es.get p with
    | none => simp [Contains, leaf, GoMap.get, GoMap.index, hp]
    | some vm =>
      cases vm with
      | none => simp [Contains, leaf, GoMap.get, GoMap.index, hp]
      | some vs =>
        cases hv : vs.get v with
        | none => simp [Contains, leaf, GoMap.get, GoMap.index, hp, hv]
        | some fm =>
          cases fm with
          | none => simp [Contains, leaf, GoMap.get, GoMap.index, hp, hv]
          | some fs =>
            cases hf : fs.get f <;>
              simp [Contains, leaf, GoMap.get, GoMap.index, hp, hv, hf]

/-! ## Claims on the index -/

/-- C1: on an index whose top-level mapping exists, after `Add(p, v, f, u)` (whether the
call returned or panicked) every leaf `(p', v', f')` other than `(p, v, f)` that was in the
index still holds the URL it held. -/
theorem add_keeps_other_leaves (es : Entries (GoMap (GoMap String)))
    (p v f u p' v' f' u' : String) (hne : (p', v', f') ≠ (p, v, f))
    (hin : Releases.leaf (some ⟨some es⟩) p' v' f' = some u') :
    Releases.leaf (Releases.Add (some ⟨some es⟩) p v f u).1 p' v' f' = some u' := by
  cases hres : (addData (some es) p v f u).2 with
  | some e =>
    have h := addData_panic (some es) p v f u e hres
    simp only [Releases.Add, Releases.leaf, h]
    exact hin
  | none =>
    have h := leaf_addData (some es) p v f u hres p' v' f'
    have hk : ¬ (p' = p ∧ v' = v ∧ f' = f) := by
      rintro ⟨h1, h2, h3⟩
      exact hne (by rw [h1, h2, h3])
    simp only [Releases.Add, Releases.leaf, h, if_neg hk]
    exact hin

/-- The witness of C1: recording `("qsctl", "v1.1.0", "b.tar.gz")` next to
`("qsctl", "v1.0.0", "a.tar.gz")` keeps the latter. -/
theorem add_keeps_other_leaves_witness :
    ("qsctl", "v1.0.0", "a.tar.gz") ≠ ("qsctl", "v1.1.0", "b.tar.gz") ∧
    Releases.leaf (some ⟨some [("qsctl", some [("v1.0.0", some [("a.tar.gz", "https://x/a")])])]⟩)
      "qsctl" "v1.0.0" "a.tar.gz" = some "https://x/a" ∧
    Releases.leaf (Releases.Add
      (some ⟨some [("qsctl", some [("v1.0.0", some [("a.tar.gz", "https://x/a")])])]⟩)
      "qsctl" "v1.1.0" "b.tar.gz" "https://x/b").1 "qsctl" "v1.0.0" "a.tar.gz"
      = some "https://x/a" :=
  ⟨by decide, by decide,
    add_keeps_other_leaves [("qsctl", some [("v1.0.0", some [("a.tar.gz", "https://x/a")])])]
      "qsctl" "v1.1.0" "b.tar.gz" "https://x/b" "qsctl" "v1.0.0" "a.tar.gz" "https://x/a"
      (by decide) (by decide)⟩

/-- C2, as stated, fails: on a freshly constructed `Releases{}` the map is nil, `Add` panics
on its first assignment, the map stays nil and `Exist` returns false. -/
theorem add_on_fresh_releases_panics :
    Releases.Add (some ⟨none⟩) "qsctl" "v1.0.0" "a.tar.gz" "https://x/a"
      = (some ⟨none⟩, some nilMapPanic) ∧
    Releases.Exist (some ⟨none⟩) "qsctl" "v1.0.0" "a.tar.gz" = .ok false :=
  ⟨rfl, rfl⟩

/-- C2, amended: on an index with no nil level on the way to the key (the levels may be
absent), `Add(p, v, f, u)` returns without a panic, and afterwards `Exist(p, v, f)` is true
and the leaf at `(p, v, f)` is `u`. -/
theorem add_then_exist (d : Index) (p v f u : String) (h : ¬ NilLevel d p v) :
    (Releases.Add (some ⟨d⟩) p v f u).2 = none ∧
    (∃ d', (Releases.Add (some ⟨d⟩) p v f u).1 = some ⟨d'⟩ ∧
      Releases.Exist (some ⟨d'⟩) p v f = .ok true ∧ leaf d' p v f = some u) := by
  have hok := (addData_ok_iff d p v f u).mpr h
  have hl := leaf_addData d p v f u hok p v f
  simp only [and_self, if_true] at hl
  refine ⟨hok, (addData d p v f u).1, rfl, ?_, hl⟩
  rw [exist_eq_leaf, hl]
  rfl

/-- The witness of C2, amended: recording into the empty index `{}`. -/
theorem add_then_exist_witness :
    ¬ NilLevel (some []) "qsctl" "v1.0.0" ∧
    (Releases.Add (some ⟨some []⟩) "qsctl" "v1.0.0" "a.tar.gz" "https://x/a").2 = none ∧
    (∃ d', (Releases.Add (some ⟨some []⟩) "qsctl" "v1.0.0" "a.tar.gz" "https://x/a").1
        = some ⟨d'⟩ ∧
      Releases.Exist (some ⟨d'⟩) "qsctl" "v1.0.0" "a.tar.gz" = .ok true ∧
      leaf d' "qsctl" "v1.0.0" "a.tar.gz" = some "https://x/a") :=
  ⟨by decide, add_then_exist (some []) "qsctl" "v1.0.0" "a.tar.gz" "https://x/a" (by decide)⟩

/-- C3: on every index, `Exist(p, v, f)` returns (it does not fail), and it returns true
exactly when `p` is a key of the index, `v` a key of its version mapping and `f` a key of
that version's filename mapping; keys are compared by string equality. -/
theorem exist_iff_contains (d : Index) (p v f : String) :
    ∃ b, Releases.Exist (some ⟨d⟩) p v f = .ok b ∧ (b = true ↔ Contains d p v f) :=
  ⟨(leaf d p v f).isSome, exist_eq_leaf d p v f, leaf_isSome_iff d p v f⟩

/-! ## Lemmas on the pipeline -/

theorem forAssets_append {σ : Type} (S : Storager σ) (sys : Sys) (m : Metadata)
    (location repo : String) (release : RepositoryRelease) (pre post : List ReleaseAsset)
    (st : State σ) :
    forAssets S sys m location repo release (pre ++ post) st =
      match forAssets S sys m location repo release pre st with
      | .halt e st1 => .halt e st1
      | .ok _ st1 => forAssets S sys m location repo release post st1 := by
  induction pre generalizing st with
  | nil => simp [forAssets]
  | cons a pre ih =>
    simp only [List.cons_append, forAssets]
    cases mirrorAsset S sys m location repo release a st with
    | halt e st1 => rfl
    | ok u st1 => exact ih st1

theorem record_ok {σ : Type} (repo tag name url : String) (st st1 : State σ)
    (h : record repo tag name url st = .ok () st1) :
    ∃ d, st.data = some ⟨d⟩ ∧ (addData d repo tag name url).2 = none ∧
      st1 = { st with data := some ⟨(addData d repo tag name url).1⟩ } := by
  unfold record at h
  cases hd : st.data with
  | none => simp [hd, Releases.Add] at h
  | some r =>
    obtain ⟨d⟩ := r
    simp only [hd, Releases.Add] at h
    cases hp : (addData d repo tag name url).2 with
    | some e =>
      rw [hp] at h
      simp at h
    | none =>
      rw [hp] at h
      simp only [Res.ok.injEq, true_and] at h
      exact ⟨d, rfl, hp, h.symm⟩

theorem record_same {σ : Type} (repo tag name url : String) (st : State σ)
    (h : Releases.leaf st.data repo tag name = some url) :
    record repo tag name url st = .ok () st := by
  obtain ⟨data, store, writes, gets, files⟩ := st
  cases data with
  | none => simp [Releases.leaf] at h
  | some r =>
    obtain ⟨d⟩ := r
    simp only [Releases.leaf] at h
    simp only [record, Releases.Add, addData_same d repo tag name url h]

theorem downloadAndUpload_ok {σ : Type} (S : Storager σ) (sys : Sys) (asset : ReleaseAsset)
    (path : String) (st st1 : State σ) (h : downloadAndUpload S sys asset path st = .ok () st1) :
    ∃ body n s, S.write st.store path body n = .ok s ∧
      st1 = { st with gets := st.gets ++ [asset.browserDownloadURL],
                      writes := st.writes ++ [path], store := s } := by
  unfold downloadAndUpload at h
  cases ht : sys.tempFile with
  | some e => simp [ht] at h
  | none =>
    simp only [ht] at h
    cases hg : sys.httpGet asset.browserDownloadURL with
    | error e => simp [hg] at h
    | ok body =>
      simp only [hg] at h
      cases hc : sys.ioCopy body with
      | error e => simp [hc] at h
      | ok n =>
        simp only [hc] at h
        cases hw : S.write st.store path body n with
        | error e => simp [hw] at h
        | ok s =>
          simp only [hw, Res.ok.injEq, true_and] at h
          exact ⟨body, n, s, hw, h.symm⟩

theorem adv_refl {σ : Type} (S : Storager σ) (st : State σ) : Adv S st st :=
  ⟨rfl, fun _ h => h, rfl, fun _ _ _ _ _ _ _ h => h⟩

theorem adv_trans {σ : Type} {S : Storager σ} {st st1 st2 : State σ}
    (h1 : Adv S st st1) (h2 : Adv S st1 st2) : Adv S st st2 := by
  obtain ⟨a1, b1, c1, d1⟩ := h1
  obtain ⟨a2, b2, c2, d2⟩ := h2
  refine ⟨a2.trans a1, fun q h => b2 q (b1 q h), c2.trans c1, ?_⟩
  intro m location hm hl p v f h
  exact d2 m location (a1.trans hm) hl p v f (d1 m location hm hl p v f h)

theorem mirrored_adv {σ : Type} {S : Storager σ} {m : Metadata} {location : String}
    {st st1 : State σ} {repo tag name : String} (h : Adv S st st1)
    (hm : S.metadata st.store = .ok m) (hl : m.location = some location)
    (hmir : Mirrored S m location st repo tag name) :
    Mirrored S m location st1 repo tag name :=
  ⟨h.2.1 _ hmir.1, h.2.2.2 m location hm hl repo tag name hmir.2⟩

theorem record_adv {σ : Type} (S : Storager σ) (m : Metadata) (location repo tag name : String)
    (st st1 : State σ) (hm : S.metadata st.store = .ok m) (hl : m.location = some location)
    (h : record repo tag name (publicURL m.name location (targetPath repo tag name)) st
      = .ok () st1) :
    Adv S st st1 ∧ st1.store = st.store ∧
    Releases.leaf st1.data repo tag name
      = some (publicURL m.name location (targetPath repo tag name)) := by
  obtain ⟨d, hd, hok, hst⟩ := record_ok _ _ _ _ _ _ h
  subst hst
  have hleaf := leaf_addData d repo tag name
    (publicURL m.name location (targetPath repo tag name)) hok
  refine ⟨⟨rfl, fun _ h => h, rfl, ?_⟩, rfl, ?_⟩
  · intro m1 l1 hm1 hl1 p v f hp
    rw [hm] at hm1
    cases hm1
    rw [hl] at hl1
    cases hl1
    simp only [Releases.leaf, hleaf]
    by_cases hk : p = repo ∧ v = tag ∧ f = name
    · obtain ⟨h1, h2, h3⟩ := hk
      subst h1 h2 h3
      simp
    · rw [if_neg hk]
      rw [hd] at hp
      exact hp
  · simp [Releases.leaf, hleaf]

theorem mirrorAsset_adv {σ : Type} (S : Storager σ) (laws : StoreLaws S) (sys : Sys)
    (m : Metadata) (location repo : String) (release : RepositoryRelease) (asset : ReleaseAsset)
    (st st1 : State σ) (hm : S.metadata st.store = .ok m) (hl : m.location = some location)
    (h : mirrorAsset S sys m location repo release asset st = .ok () st1) :
    Adv S st st1 ∧ Mirrored S m location st1 repo release.tagName asset.name := by
  unfold mirrorAsset at h
  cases hs : S.stat st.store (targetPath repo release.tagName asset.name) with
  | failed e => simp [hs] at h
  | found =>
    simp only [hs] at h
    obtain ⟨hadv, hstore, hleaf⟩ := record_adv S m location repo _ _ st st1 hm hl h
    exact ⟨hadv, by rw [hstore]; exact hs, hleaf⟩
  | notExist =>
    simp only [hs] at h
    cases hd : downloadAndUpload S sys asset (targetPath repo release.tagName asset.name) st with
    | halt e st2 => simp [hd] at h
    | ok u st2 =>
      simp only [hd] at h
      obtain ⟨body, n, s, hw, hst2⟩ := downloadAndUpload_ok S sys asset _ st st2 hd
      have hm2 : S.metadata st2.store = .ok m := by
        rw [hst2]
        exact (laws.write_meta _ _ _ _ _ hw).trans hm
      obtain ⟨hadv, hstore, hleaf⟩ := record_adv S m location repo _ _ st2 st1 hm2 hl h
      have hadv0 : Adv S st st2 := by
        rw [hst2]
        exact ⟨laws.write_meta _ _ _ _ _ hw, fun q hq => laws.write_keeps _ _ _ _ _ q hw hq,
          rfl, fun _ _ _ _ _ _ _ hp => hp⟩
      refine ⟨adv_trans hadv0 hadv, ?_, hleaf⟩
      rw [hstore, hst2]
      exact laws.write_found _ _ _ _ _ hw

theorem forAssets_adv {σ : Type} (S : Storager σ) (laws : StoreLaws S) (sys : Sys)
    (m : Metadata) (location repo : String) (release : RepositoryRelease)
    (assets : List ReleaseAsset) (st st1 : State σ) (hm : S.metadata st.store = .ok m)
    (hl : m.location = some location)
    (h : forAssets S sys m location repo release assets st = .ok () st1) :
    Adv S st st1 ∧ ∀ a ∈ assets, Mirrored S m location st1 repo release.tagName a.name := by
  induction assets generalizing st with
  | nil =>
    simp only [forAssets, Res.ok.injEq, true_and] at h
    subst h
    exact ⟨adv_refl S st, by simp⟩
  | cons a rest ih =>
    simp only [forAssets] at h
    cases hma : mirrorAsset S sys m location repo release a st with
    | halt e st2 => simp [hma] at h
    | ok u st2 =>
      simp only [hma] at h
      obtain ⟨hadv, hmir⟩ := mirrorAsset_adv S laws sys m location repo release a st st2 hm hl hma
      have hm2 : S.metadata st2.store = .ok m := hadv.1.trans hm
      obtain ⟨hadv2, hrest⟩ := ih st2 hm2 h
      refine ⟨adv_trans hadv hadv2, ?_⟩
      intro b hb
      rcases List.mem_cons.mp hb with hba | hbr
      · subst hba
        exact mirrored_adv hadv2 hm2 hl hmir
      · exact hrest b hbr

theorem mirrorAsset_idle {σ : Type} (S : Storager σ) (sys : Sys) (m : Metadata)
    (location repo : String) (release : RepositoryRelease) (asset : ReleaseAsset) (st : State σ)
    (h : Mirrored S m location st repo release.tagName asset.name) :
    mirrorAsset S sys m location repo release asset st = .ok () st := by
  simp only [mirrorAsset, h.1]
  exact record_same _ _ _ _ st h.2

theorem forAssets_idle {σ : Type} (S : Storager σ) (sys : Sys) (m : Metadata)
    (location repo : String) (release : RepositoryRelease) (assets : List ReleaseAsset)
    (st : State σ) (h : ∀ a ∈ assets, Mirrored S m location st repo release.tagName a.name) :
    forAssets S sys m location repo release assets st = .ok () st := by
  induction assets with
  | nil => rfl
  | cons a rest ih =>
    simp only [forAssets, mirrorAsset_idle S sys m location repo release a st
      (h a (List.mem_cons_self a rest))]
    exact ih (fun b hb => h b (List.mem_cons_of_mem a hb))

theorem Root.forRepos_settled {σ : Type} (S : Storager σ) (laws : StoreLaws S) (sys : Sys)
    (client : Client) (rs : List String) (st st1 : State σ)
    (h : Root.forRepos S sys client rs st = .ok () st1) :
    Adv S st st1 ∧ Settled S client rs st1 := by
  induction rs generalizing st with
  | nil =>
    simp only [Root.forRepos, Res.ok.injEq, true_and] at h
    subst h
    exact ⟨adv_refl S st, by simp [Settled]⟩
  | cons v rest ih =>
    simp only [Root.forRepos, Root.listReleases] at h
    cases hrel : client.getLatestRelease "qingstor" v with
    | error e => simp [hrel] at h
    | ok release =>
      simp only [hrel, Root.listAssets] at h
      cases hmeta : S.metadata st.store with
      | error e => simp [hmeta] at h
      | ok m =>
        simp only [hmeta] at h
        cases hloc : m.location with
        | none => simp [hloc] at h
        | some location =>
          simp only [hloc] at h
          cases hassets : client.listReleaseAssets "qingstor" v release.id 100 with
          | error e => simp [hassets] at h
          | ok assets =>
            simp only [hassets] at h
            cases hfa : forAssets S sys m location v release assets st with
            | halt e st2 => simp [hfa] at h
            | ok u st2 =>
              simp only [hfa] at h
              obtain ⟨hadv, hmir⟩ :=
                forAssets_adv S laws sys m location v release assets st st2 hmeta hloc hfa
              have hm2 : S.metadata st2.store = .ok m := hadv.1.trans hmeta
              obtain ⟨hadv2, hset⟩ := ih st2 h
              refine ⟨adv_trans hadv hadv2, ?_⟩
              intro w hw
              rcases List.mem_cons.mp hw with hwv | hwr
              · subst hwv
                exact ⟨release, m, location, assets, hrel, hadv2.1.trans hm2, hloc, hassets,
                  fun a ha => mirrored_adv hadv2 hm2 hloc (hmir a ha)⟩
              · exact hset w hwr

theorem Root.forRepos_idle {σ : Type} (S : Storager σ) (sys : Sys) (client : Client)
    (rs : List String) (st : State σ) (h : Settled S client rs st) :
    Root.forRepos S sys client rs st = .ok () st := by
  induction rs with
  | nil => rfl
  | cons v rest ih =>
    obtain ⟨release, m, location, assets, hrel, hmeta, hloc, hassets, hmir⟩ :=
      h v (List.mem_cons_self v rest)
    simp only [Root.forRepos, Root.listReleases, hrel, Root.listAssets, hmeta, hloc, hassets,
      forAssets_idle S sys m location v release assets st hmir]
    exact ih (fun w hw => h w (List.mem_cons_of_mem v hw))

theorem keeps_refl (m : Metadata) (location : String) (d : Option Releases) :
    Keeps m location d d :=
  fun _ _ _ _ h => Or.inl h

theorem keeps_trans {m : Metadata} {location : String} {d d1 d2 : Option Releases}
    (h1 : Keeps m location d d1) (h2 : Keeps m location d1 d2) : Keeps m location d d2 := by
  intro p v f u h
  rcases h1 p v f u h with ha | hb
  · exact h2 p v f u ha
  · rcases h2 p v f _ hb with hc | hc <;> exact Or.inr hc

theorem record_keeps {σ : Type} (m : Metadata) (location repo tag name : String)
    (st : State σ) :
    Keeps m location st.data
      (record repo tag name (publicURL m.name location (targetPath repo tag name)) st).state.data
      := by
  intro p v f u h
  cases hd : st.data with
  | none => simp [hd, Releases.leaf] at h
  | some r =>
    obtain ⟨d⟩ := r
    rw [hd] at h
    simp only [Releases.leaf] at h
    cases hp : (addData d repo tag name
        (publicURL m.name location (targetPath repo tag name))).2 with
    | some e =>
      have hsame := addData_panic d repo tag name _ e hp
      left
      simp only [record, hd, Releases.Add, hp, Res.state, Releases.leaf, hsame]
      exact h
    | none =>
      have hleaf := leaf_addData d repo tag name _ hp p v f
      simp only [record, hd, Releases.Add, hp, Res.state, Releases.leaf, hleaf]
      by_cases hk : p = repo ∧ v = tag ∧ f = name
      · obtain ⟨h1, h2, h3⟩ := hk
        subst h1 h2 h3
        right
        simp
      · left
        rw [if_neg hk]
        exact h

theorem downloadAndUpload_data {σ : Type} (S : Storager σ) (sys : Sys) (asset : ReleaseAsset)
    (path : String) (st : State σ) :
    (downloadAndUpload S sys asset path st).state.data = st.data := by
  unfold downloadAndUpload
  cases sys.tempFile with
  | some e => rfl
  | none =>
    simp only
    cases sys.httpGet asset.browserDownloadURL with
    | error e => rfl
    | ok body =>
      simp only
      cases sys.ioCopy body with
      | error e => rfl
      | ok n =>
        simp only
        cases S.write st.store path body n with
        | error e => rfl
        | ok s => rfl

theorem mirrorAsset_keeps {σ : Type} (S : Storager σ) (sys : Sys) (m : Metadata)
    (location repo : String) (release : RepositoryRelease) (asset : ReleaseAsset)
    (st : State σ) :
    Keeps m location st.data
      (mirrorAsset S sys m location repo release asset st).state.data := by
  cases hs : S.stat st.store (targetPath repo release.tagName asset.name) with
  | failed e =>
    simp only [mirrorAsset, hs]
    exact keeps_refl m location st.data
  | found =>
    simp only [mirrorAsset, hs]
    exact record_keeps m location repo release.tagName asset.name st
  | notExist =>
    have hd := downloadAndUpload_data S sys asset
      (targetPath repo release.tagName asset.name) st
    cases hdu : downloadAndUpload S sys asset (targetPath repo release.tagName asset.name) st with
    | halt e st1 =>
      rw [hdu] at hd
      simp only [Res.state] at hd
      simp only [mirrorAsset, hs, hdu, Res.state, hd]
      exact keeps_refl m location st.data
    | ok u st1 =>
      rw [hdu] at hd
      simp only [Res.state] at hd
      simp only [mirrorAsset, hs, hdu]
      rw [← hd]
      exact record_keeps m location repo release.tagName asset.name st1

theorem forAssets_keeps {σ : Type} (S : Storager σ) (sys : Sys) (m : Metadata)
    (location repo : String) (release : RepositoryRelease) (assets : List ReleaseAsset)
    (st : State σ) :
    Keeps m location st.data
      (forAssets S sys m location repo release assets st).state.data := by
  induction assets generalizing st with
  | nil => exact keeps_refl m location st.data
  | cons a rest ih =>
    have h1 := mirrorAsset_keeps S sys m location repo release a st
    simp only [forAssets]
    cases hma : mirrorAsset S sys m location repo release a st with
    | halt e st1 =>
      rw [hma] at h1
      exact h1
    | ok u st1 =>
      rw [hma] at h1
      exact keeps_trans h1 (ih st1)

theorem Cmd.forReleases_keeps {σ : Type} (S : Storager σ) (sys : Sys) (client : Client)
    (m : Metadata) (location repo : String) (releases : List RepositoryRelease)
    (st : State σ) :
    Keeps m location st.data
      (Cmd.forReleases S sys client m location repo releases st).state.data := by
  induction releases generalizing st with
  | nil => exact keeps_refl m location st.data
  | cons release rest ih =>
    simp only [Cmd.forReleases]
    cases client.listReleaseAssets "qingstor" repo release.id 100 with
    | error e => exact keeps_refl m location st.data
    | ok assets =>
      have h1 := forAssets_keeps S sys m location repo release assets st
      simp only
      cases hfa : forAssets S sys m location repo release assets st with
      | halt e st1 =>
        rw [hfa] at h1
        exact h1
      | ok u st1 =>
        rw [hfa] at h1
        exact keeps_trans h1 (ih st1)

theorem mirrorAsset_nil_data {σ : Type} (S : Storager σ) (sys : Sys) (m : Metadata)
    (location repo : String) (release : RepositoryRelease) (asset : ReleaseAsset)
    (st st1 : State σ) (hd : st.data = none) :
    mirrorAsset S sys m location repo release asset st ≠ .ok () st1 := by
  intro h
  unfold mirrorAsset at h
  cases hs : S.stat st.store (targetPath repo release.tagName asset.name) with
  | failed e => simp [hs] at h
  | found =>
    simp only [hs] at h
    obtain ⟨d, hd1, _⟩ := record_ok _ _ _ _ _ _ h
    rw [hd] at hd1
    cases hd1
  | notExist =>
    simp only [hs] at h
    have hdd := downloadAndUpload_data S sys asset
      (targetPath repo release.tagName asset.name) st
    cases hdu : downloadAndUpload S sys asset (targetPath repo release.tagName asset.name) st with
    | halt e st2 => simp [hdu] at h
    | ok u st2 =>
      simp only [hdu] at h
      rw [hdu] at hdd
      simp only [Res.state] at hdd
      obtain ⟨d, hd1, _⟩ := record_ok _ _ _ _ _ _ h
      rw [hdd, hd] at hd1
      cases hd1

theorem forAssets_nil_data {σ : Type} (S : Storager σ) (sys : Sys) (m : Metadata)
    (location repo : String) (release : RepositoryRelease) (assets : List ReleaseAsset)
    (st st1 : State σ) (hd : st.data = none)
    (h : forAssets S sys m location repo release assets st = .ok () st1) : st1.data = none := by
  cases assets with
  | nil =>
    simp only [forAssets, Res.ok.injEq, true_and] at h
    rw [← h]
    exact hd
  | cons a rest =>
    simp only [forAssets] at h
    cases hma : mirrorAsset S sys m location repo release a st with
    | halt e st2 => simp [hma] at h
    | ok u st2 => exact absurd hma (mirrorAsset_nil_data S sys m location repo release a st st2 hd)

theorem Cmd.forReleases_nil_data {σ : Type} (S : Storager σ) (sys : Sys) (client : Client)
    (m : Metadata) (location repo : String) (releases : List RepositoryRelease)
    (st st1 : State σ) (hd : st.data = none)
    (h : Cmd.forReleases S sys client m location repo releases st = .ok () st1) :
    st1.data = none := by
  induction releases generalizing st with
  | nil =>
    simp only [Cmd.forReleases, Res.ok.injEq, true_and] at h
    rw [← h]
    exact hd
  | cons release rest ih =>
    simp only [Cmd.forReleases] at h
    cases hassets : client.listReleaseAssets "qingstor" repo release.id 100 with
    | error e => simp [hassets] at h
    | ok assets =>
      simp only [hassets] at h
      cases hfa : forAssets S sys m location repo release assets st with
      | halt e st2 => simp [hfa] at h
      | ok u st2 =>
        simp only [hfa] at h
        exact ih st2 (forAssets_nil_data S sys m location repo release assets st st2 hd hfa) h

theorem Cmd.listAssets_nil_data {σ : Type} (S : Storager σ) (sys : Sys) (client : Client)
    (repo : String) (ch : Cmd.Channel) (st st1 : State σ) (hd : st.data = none)
    (h : Cmd.listAssets S sys client repo ch st = some (.ok () st1)) : st1.data = none := by
  unfold Cmd.listAssets at h
  cases hm : S.metadata st.store with
  | error e => simp [hm] at h
  | ok m =>
    simp only [hm] at h
    cases hl : m.location with
    | none => simp [hl] at h
    | some location =>
      simp only [hl] at h
      cases hfr : Cmd.forReleases S sys client m location repo ch.sent st with
      | halt e st2 => simp [hfr] at h
      | ok u st2 =>
        simp only [hfr] at h
        have h2 := Cmd.forReleases_nil_data S sys client m location repo ch.sent st st2 hd hfr
        cases hend : ch.ending with
        | running => simp [hend] at h
        | fatal msg => simp [hend] at h
        | closed =>
          simp only [hend, Option.some.injEq, Res.ok.injEq, true_and] at h
          rw [← h]
          exact h2

theorem Cmd.forRepos_nil_data {σ : Type} (S : Storager σ) (sys : Sys) (client : Client)
    (fuel : Nat) (rs : List String) (st st1 : State σ) (hd : st.data = none)
    (h : Cmd.forRepos S sys client fuel rs st = some (.ok () st1)) : st1.data = none := by
  induction rs generalizing st with
  | nil =>
    simp only [Cmd.forRepos, Option.some.injEq, Res.ok.injEq, true_and] at h
    rw [← h]
    exact hd
  | cons v rest ih =>
    simp only [Cmd.forRepos] at h
    cases hla : Cmd.listAssets S sys client v (Cmd.listReleases client v fuel) st with
    | none => simp [hla] at h
    | some r =>
      cases r with
      | halt e st2 => simp [hla] at h
      | ok u st2 =>
        simp only [hla] at h
        exact ih st2 (Cmd.listAssets_nil_data S sys client v _ st st2 hd hla) h

/-- No run of `src/cmd/main.go` returns: `setup` leaves the package variable `data` nil, so
the run stops in `setup`, in the pipeline, or with a panic at `data.data` in `main`. -/
theorem Cmd.main_never_returns {σ : Type} (S : Storager σ) (sys : Sys) (client : Client)
    (fuel : Nat) (rs : List String) (s : σ) (st : State σ) :
    Cmd.main S sys client fuel rs (init s) ≠ some (.ok () st) := by
  intro h
  unfold Cmd.main at h
  cases hsetup : Cmd.setup sys (init s) with
  | halt e st1 => simp [hsetup] at h
  | ok u st1 =>
    simp only [hsetup] at h
    have hst1 : st1.data = none := by
      unfold Cmd.setup at hsetup
      cases hr : sys.readFile "site/data.json" with
      | error e => simp [hr] at hsetup
      | ok c =>
        simp only [hr] at hsetup
        cases hu : sys.unmarshal c with
        | error e => simp [hu] at hsetup
        | ok idx =>
          simp only [hu] at hsetup
          cases ho : sys.openStorager with
          | some e => simp [ho] at hsetup
          | none =>
            simp only [ho, Res.ok.injEq, true_and] at hsetup
            rw [← hsetup]
            rfl
    cases hfr : Cmd.forRepos S sys client fuel rs st1 with
    | none => simp [hfr] at h
    | some r =>
      cases r with
      | halt e st2 => simp [hfr] at h
      | ok u st2 =>
        have hst2 := Cmd.forRepos_nil_data S sys client fuel rs st1 st2 hst1 hfr
        simp [hfr, persist, hst2] at h

/-! ## Claims on the pipeline -/

/-- C4: in the loop over the assets of a release that both `listAssets` run, an asset whose
target path `Stat` finds in storage is only recorded: the iteration is the call
`data.Add(repo, tag, name, url)` with the URL built from the bucket name, the location and
the path, there is no `http.Get`, no `store.Write`, and the bucket is as before. -/
theorem existing_asset_only_recorded {σ : Type} (S : Storager σ) (sys : Sys) (m : Metadata)
    (location repo : String) (release : RepositoryRelease) (pre post : List ReleaseAsset)
    (asset : ReleaseAsset) (st st1 : State σ)
    (hpre : forAssets S sys m location repo release pre st = .ok () st1)
    (hstat : S.stat st1.store (targetPath repo release.tagName asset.name) = .found) :
    forAssets S sys m location repo release (pre ++ asset :: post) st =
      (match Releases.Add st1.data repo release.tagName asset.name
          ("https://" ++ m.name ++ "." ++ location ++ ".qingstor.com/" ++
            (repo ++ "/" ++ release.tagName ++ "/" ++ asset.name)) with
       | (r, none) => forAssets S sys m location repo release post { st1 with data := r }
       | (r, some e) => .halt (.panic e) { st1 with data := r }) ∧
    (mirrorAsset S sys m location repo release asset st1).state.writes = st1.writes ∧
    (mirrorAsset S sys m location repo release asset st1).state.gets = st1.gets ∧
    (mirrorAsset S sys m location repo release asset st1).state.store = st1.store := by
  have hm : mirrorAsset S sys m location repo release asset st1 =
      record repo release.tagName asset.name
        (publicURL m.name location (targetPath repo release.tagName asset.name)) st1 := by
    simp only [mirrorAsset, hstat]
  refine ⟨?_, ?_, ?_, ?_⟩
  · rw [forAssets_append, hpre]
    simp only [forAssets, hm, record, publicURL, targetPath]
    rcases Releases.Add st1.data repo release.tagName asset.name _ with ⟨r, _ | e⟩ <;> rfl
  all_goals
    rw [hm]
    simp only [record]
    rcases Releases.Add st1.data repo release.tagName asset.name _ with ⟨r, _ | e⟩ <;> rfl

/-- The witness of C4: `demo.zip` is in the bucket, and the loop over `[demo.zip]` only
records it. -/
theorem existing_asset_only_recorded_witness :
    forAssets demoStore demoSys demoMeta "pek3a" "demo" demoRelease [] storedState
      = .ok () storedState ∧
    demoStore.stat storedState.store (targetPath "demo" demoRelease.tagName demoAsset.name)
      = .found ∧
    (forAssets demoStore demoSys demoMeta "pek3a" "demo" demoRelease ([] ++ demoAsset :: [])
        storedState =
      (match Releases.Add storedState.data "demo" demoRelease.tagName demoAsset.name
          ("https://" ++ demoMeta.name ++ "." ++ "pek3a" ++ ".qingstor.com/" ++
            ("demo" ++ "/" ++ demoRelease.tagName ++ "/" ++ demoAsset.name)) with
       | (r, none) => forAssets demoStore demoSys demoMeta "pek3a" "demo" demoRelease []
            { storedState with data := r }
       | (r, some e) => .halt (.panic e) { storedState with data := r }) ∧
    (mirrorAsset demoStore demoSys demoMeta "pek3a" "demo" demoRelease demoAsset
      storedState).state.writes = storedState.writes ∧
    (mirrorAsset demoStore demoSys demoMeta "pek3a" "demo" demoRelease demoAsset
      storedState).state.gets = storedState.gets ∧
    (mirrorAsset demoStore demoSys demoMeta "pek3a" "demo" demoRelease demoAsset
      storedState).state.store = storedState.store) :=
  ⟨rfl, by decide,
    existing_asset_only_recorded demoStore demoSys demoMeta "pek3a" "demo" demoRelease [] []
      demoAsset storedState storedState rfl (by decide)⟩

/-- C5: in the loop over the assets of a release that both `listAssets` run, when `Stat` of
the target path of an asset fails with an error other than `ErrObjectNotExist`, the run stops
there with `log.Fatalf("storage stat: ...")` in the state reached before that asset: no
`store.Write` and no `data.Add` for it. -/
theorem stat_failure_stops_run {σ : Type} (S : Storager σ) (sys : Sys) (m : Metadata)
    (location repo : String) (release : RepositoryRelease) (pre post : List ReleaseAsset)
    (asset : ReleaseAsset) (st st1 : State σ) (e : String)
    (hpre : forAssets S sys m location repo release pre st = .ok () st1)
    (hstat : S.stat st1.store (targetPath repo release.tagName asset.name) = .failed e) :
    forAssets S sys m location repo release (pre ++ asset :: post) st =
      .halt (.fatal ("storage stat: " ++ e)) st1 := by
  rw [forAssets_append, hpre]
  simp only [forAssets, mirrorAsset, hstat]

/-- The witness of C5: `Stat` of the path of `demo.zip` is denied. -/
theorem stat_failure_stops_run_witness :
    forAssets deniedStore demoSys demoMeta "pek3a" "demo" demoRelease [] emptyState
      = .ok () emptyState ∧
    deniedStore.stat emptyState.store (targetPath "demo" demoRelease.tagName demoAsset.name)
      = .failed "permission denied" ∧
    forAssets deniedStore demoSys demoMeta "pek3a" "demo" demoRelease ([] ++ demoAsset :: [])
        emptyState = .halt (.fatal ("storage stat: " ++ "permission denied")) emptyState :=
  ⟨rfl, by decide,
    stat_failure_stops_run deniedStore demoSys demoMeta "pek3a" "demo" demoRelease [] []
      demoAsset emptyState emptyState "permission denied" rfl (by decide)⟩

/-- The scenario of C6 in `src/main.go`: the run returns after one `http.Get` and one
`store.Write`, of path `demo/v1.0.0/demo.zip`, with the index
`{"demo": {"v1.0.0": {"demo.zip": demoURL}}}`, which it persists. -/
theorem root_demo_run :
    Root.main demoStore demoSys demoClient ["demo"] (init []) =
      .ok () ⟨some ⟨demoIndex⟩, ["demo/v1.0.0/demo.zip"], ["demo/v1.0.0/demo.zip"],
        ["https://github.com/qingstor/demo/demo.zip"], [("data.json", "demo-document")]⟩ := by
  rfl

/-- C6 fails in `src/cmd/main.go`: `setup` unmarshals the document into a local variable, the
package variable `data` stays nil, and the run of the scenario panics in `data.Add` after
its `store.Write`, with no index. -/
theorem cmd_demo_run_panics (fuel : Nat) :
    Cmd.main demoStore demoSys demoClient (fuel + 1) ["demo"] (init []) =
      some (.halt (.panic nilDerefPanic) ⟨none, ["demo/v1.0.0/demo.zip"],
        ["demo/v1.0.0/demo.zip"], ["https://github.com/qingstor/demo/demo.zip"], []⟩) := by
  rfl

/-- The goroutine of `listReleases` on a platform that serves a chain of pages from `page`:
with fuel for every page of the chain it requests the pages of the chain, sends their
releases in page order and closes the channel. -/
theorem listReleasesLoop_chain (client : Client) (repo : String)
    (chain : List (List RepositoryRelease × Int)) (page : Int) (fuel : Nat)
    (h : ServesChain client repo page chain) (hf : chain.length ≤ fuel) :
    Cmd.listReleasesLoop client repo fuel page =
      ⟨chainReleases chain, chainPages page chain, .closed⟩ := by
  induction chain generalizing page fuel with
  | nil => exact absurd h (by simp [ServesChain])
  | cons x rest ih =>
    obtain ⟨rs, next⟩ := x
    cases fuel with
    | zero => simp at hf
    | succ n =>
      cases rest with
      | nil =>
        obtain ⟨h1, h2⟩ := h
        simp [Cmd.listReleasesLoop, h1, h2, chainReleases, chainPages]
      | cons r rest =>
        obtain ⟨h1, h2, h3⟩ := h
        have hn : (r :: rest).length ≤ n := by
          simp only [List.length_cons] at hf ⊢
          omega
        have := ih next n h3 hn
        simp only [Cmd.listReleasesLoop, h1, h2, if_false, this, chainReleases, chainPages]

/-- C10: on a hosting platform that serves a finite chain of release pages from page 1,
`listReleases` of `src/cmd/main.go`, given fuel for every page, requests exactly the pages of
the chain, sends exactly the concatenation of their releases in page order, and closes the
channel after the response whose `NextPage` is 0. -/
theorem listReleases_yields_chain (client : Client) (repo : String)
    (chain : List (List RepositoryRelease × Int)) (fuel : Nat)
    (h : ServesChain client repo 1 chain) (hf : chain.length ≤ fuel) :
    Cmd.listReleases client repo fuel = ⟨chainReleases chain, chainPages 1 chain, .closed⟩ :=
  listReleasesLoop_chain client repo chain 1 fuel h hf

/-- The witness of C10: three pages of one release each, with next pages 2, 3 and 0, yield
exactly the three releases, from the requests for pages 1, 2 and 3. -/
theorem listReleases_yields_chain_witness :
    ServesChain threePages "qsctl" 1 [([⟨11, "v3"⟩], 2), ([⟨12, "v2"⟩], 3), ([⟨13, "v1"⟩], 0)] ∧
    [([(⟨11, "v3"⟩ : RepositoryRelease)], (2 : Int)), ([⟨12, "v2"⟩], 3),
      ([⟨13, "v1"⟩], 0)].length ≤ 3 ∧
    Cmd.listReleases threePages "qsctl" 3 =
      ⟨[⟨11, "v3"⟩, ⟨12, "v2"⟩, ⟨13, "v1"⟩], [1, 2, 3], .closed⟩ :=
  ⟨⟨rfl, by decide, rfl, by decide, rfl, rfl⟩, by decide,
    listReleases_yields_chain threePages "qsctl"
      [([⟨11, "v3"⟩], 2), ([⟨12, "v2"⟩], 3), ([⟨13, "v1"⟩], 0)] 3
      ⟨rfl, by decide, rfl, by decide, rfl, rfl⟩ (by decide)⟩

/-- C9, as stated, fails: when the persisted document cannot be read, `setup` of both files
stops the run with `log.Fatalf("read file: ...")`, and so it does with
`log.Fatalf("json unmarshal: ...")` on a document of zero bytes, which the codec rejects. -/
theorem setup_without_document_is_fatal :
    (Root.setup (stubSys (.error "open data.json: no such file or directory") demoDocs)
        (init ([] : List String))).exit
      = some (.fatal "read file: open data.json: no such file or directory") ∧
    (Cmd.setup (stubSys (.error "open site/data.json: no such file or directory") demoDocs)
        (init ([] : List String))).exit
      = some (.fatal "read file: open site/data.json: no such file or directory") ∧
    (Root.setup (stubSys (.ok "") demoDocs) (init ([] : List String))).exit
      = some (.fatal "json unmarshal: unexpected end of JSON input") ∧
    (Cmd.setup (stubSys (.ok "") demoDocs) (init ([] : List String))).exit
      = some (.fatal "json unmarshal: unexpected end of JSON input") :=
  ⟨rfl, rfl, rfl, rfl⟩

/-- C9, amended: in `setup` of both files, when the persisted document cannot be read, or is
read and rejected by `json.Unmarshal`, the run stops with `log.Fatalf` and the message of
that failure; the index is not loaded. -/
theorem setup_load_failure_is_fatal {σ : Type} (sys : Sys) (st : State σ) (msg : String) :
    (loadError sys Root.dataFile = some msg →
      Root.setup sys st = .halt (.fatal msg) { st with data := some ⟨none⟩ }) ∧
    (loadError sys Cmd.dataFile = some msg → Cmd.setup sys st = .halt (.fatal msg) st) := by
  constructor
  · intro h
    unfold loadError at h
    unfold Root.setup
    cases hr : sys.readFile Root.dataFile with
    | error e =>
      rw [hr] at h
      simp only [Option.some.injEq] at h
      simp only [h]
    | ok content =>
      rw [hr] at h
      cases hu : sys.unmarshal content with
      | error e =>
        simp only [hu, Option.some.injEq] at h
        simp only [hu, h]
      | ok idx => simp [hu] at h
  · intro h
    unfold loadError at h
    unfold Cmd.setup
    have hd : Cmd.dataFile = "site/data.json" := rfl
    rw [hd] at h
    cases hr : sys.readFile "site/data.json" with
    | error e =>
      rw [hr] at h
      simp only [Option.some.injEq] at h
      simp only [h]
    | ok content =>
      rw [hr] at h
      cases hu : sys.unmarshal content with
      | error e =>
        simp only [hu, Option.some.injEq] at h
        simp only [hu, h]
      | ok idx => simp [hu] at h

/-- The witness of C9, amended: a document of zero bytes, which the codec rejects. -/
theorem setup_load_failure_is_fatal_witness :
    loadError (stubSys (.ok "") demoDocs) Root.dataFile
      = some "json unmarshal: unexpected end of JSON input" ∧
    loadError (stubSys (.ok "") demoDocs) Cmd.dataFile
      = some "json unmarshal: unexpected end of JSON input" ∧
    Root.setup (stubSys (.ok "") demoDocs) emptyState
      = .halt (.fatal "json unmarshal: unexpected end of JSON input")
          { emptyState with data := some ⟨none⟩ } ∧
    Cmd.setup (stubSys (.ok "") demoDocs) emptyState
      = .halt (.fatal "json unmarshal: unexpected end of JSON input") emptyState :=
  ⟨rfl, rfl,
    (setup_load_failure_is_fatal (stubSys (.ok "") demoDocs) emptyState
      "json unmarshal: unexpected end of JSON input").1 rfl,
    (setup_load_failure_is_fatal (stubSys (.ok "") demoDocs) emptyState
      "json unmarshal: unexpected end of JSON input").2 rfl⟩

theorem stubStorager_laws (name : String) (location : Option String) :
    StoreLaws (stubStorager name location []) := by
  constructor
  · intro s path body n s1 h
    simp only [stubStorager, Except.ok.injEq] at h
    subst h
    simp [stubStorager]
  · intro s path body n s1 q h hq
    simp only [stubStorager, Except.ok.injEq] at h
    subst h
    simp only [stubStorager, List.not_mem_nil, if_false] at hq ⊢
    by_cases hmem : q ∈ s
    · simp [hmem]
    · simp [hmem] at hq
  · intro s path body n s1 _
    rfl

/-- C7: in `src/main.go`, over a storage service that keeps what it is given, a second run
that starts from the document and the bucket left by a first run that returned, against the
same hosting platform, returns as well, calls neither `http.Get` nor `store.Write`, and ends
with the index and the bucket of the end of the first run, persisting the same document. -/
theorem rerun_is_idle {σ : Type} (S : Storager σ) (laws : StoreLaws S) (sys : Sys)
    (client : Client) (rs : List String) (s0 : σ) (st1 : State σ)
    (hrun : Root.main S sys client rs (init s0) = .ok () st1)
    (hcodec : ∀ idx content, st1.data = some ⟨idx⟩ → sys.marshal idx = .ok content →
      sys.unmarshal content = .ok idx) :
    ∃ content, st1.files = [(Root.dataFile, content)] ∧
      Root.main S (rerunSys sys content) client rs (init st1.store) =
        .ok () ⟨st1.data, st1.store, [], [], [(Root.dataFile, content)]⟩ := by
  unfold Root.main at hrun
  cases hsetup : Root.setup sys (init s0) with
  | halt e stA => simp [hsetup] at hrun
  | ok u stA =>
    simp only [hsetup] at hrun
    cases hfr : Root.forRepos S sys client rs stA with
    | halt e stB => simp [hfr] at hrun
    | ok u stB =>
      simp only [hfr] at hrun
      -- the first run's setup
      have hfilesA : stA.files = [] ∧ sys.openStorager = none := by
        unfold Root.setup at hsetup
        cases hr : sys.readFile Root.dataFile with
        | error e => simp [hr] at hsetup
        | ok c =>
          simp only [hr] at hsetup
          cases hu : sys.unmarshal c with
          | error e => simp [hu] at hsetup
          | ok idx =>
            simp only [hu] at hsetup
            cases ho : sys.openStorager with
            | some e => simp [ho] at hsetup
            | none =>
              simp only [ho, Res.ok.injEq, true_and] at hsetup
              subst hsetup
              exact ⟨rfl, rfl⟩
      obtain ⟨hadv, hset⟩ := Root.forRepos_settled S laws sys client rs stA stB hfr
      have hfilesB : stB.files = [] := hadv.2.2.1.trans hfilesA.1
      -- the first run's end
      unfold persist at hrun
      cases hdB : stB.data with
      | none => simp [hdB] at hrun
      | some r =>
        obtain ⟨d⟩ := r
        simp only [hdB] at hrun
        cases hmar : sys.marshal d with
        | error e => simp [hmar] at hrun
        | ok content =>
          simp only [hmar] at hrun
          cases hwf : sys.writeFile Root.dataFile content with
          | some e => simp [hwf] at hrun
          | none =>
            simp only [hwf, Res.ok.injEq, true_and] at hrun
            subst hrun
            have hun : sys.unmarshal content = .ok d := hcodec d content rfl hmar
            refine ⟨content, by simp [hfilesB], ?_⟩
            have hset2 : Settled S client rs
                (⟨some ⟨d⟩, stB.store, [], [], []⟩ : State σ) := by
              intro v hv
              obtain ⟨release, m, location, assets, h1, h2, h3, h4, h5⟩ := hset v hv
              refine ⟨release, m, location, assets, h1, h2, h3, h4, ?_⟩
              intro a ha
              have := h5 a ha
              simp only [Mirrored, hdB] at this ⊢
              exact this
            have hidle := Root.forRepos_idle S (rerunSys sys content) client rs _ hset2
            have e1 : (rerunSys sys content).readFile Root.dataFile = .ok content := rfl
            have e2 : (rerunSys sys content).unmarshal = sys.unmarshal := rfl
            have e3 : (rerunSys sys content).openStorager = none := hfilesA.2
            have e4 : (rerunSys sys content).marshal = sys.marshal := rfl
            have e5 : (rerunSys sys content).writeFile = sys.writeFile := rfl
            simp only [Root.main, Root.setup, init, e1, e2, e3, e4, e5, hun, hidle, persist,
              hmar, hwf, List.nil_append]

/-- The witness of C7: the scenario of one project, one release and one asset, run twice. -/
theorem rerun_is_idle_witness :
    StoreLaws demoStore ∧
    Root.main demoStore demoSys demoClient ["demo"] (init []) = .ok () demoFinal ∧
    (∀ idx content, demoFinal.data = some ⟨idx⟩ → demoSys.marshal idx = .ok content →
      demoSys.unmarshal content = .ok idx) ∧
    ∃ content, demoFinal.files = [(Root.dataFile, content)] ∧
      Root.main demoStore (rerunSys demoSys content) demoClient ["demo"] (init demoFinal.store) =
        .ok () ⟨demoFinal.data, demoFinal.store, [], [], [(Root.dataFile, content)]⟩ :=
  have hcodec : ∀ idx content, demoFinal.data = some ⟨idx⟩ → demoSys.marshal idx = .ok content →
      demoSys.unmarshal content = .ok idx := by
    intro idx content h1 h2
    have hidx : demoIndex = idx := by
      have : (some ⟨demoIndex⟩ : Option Releases) = some ⟨idx⟩ := h1
      simpa using this
    subst hidx
    have hc : (Except.ok "demo-document" : Except String String) = .ok content := h2
    cases hc
    rfl
  ⟨stubStorager_laws "bucket" (some "pek3a"), rfl, hcodec,
    rerun_is_idle demoStore (stubStorager_laws "bucket" (some "pek3a")) demoSys demoClient
      ["demo"] [] demoFinal rfl hcodec⟩

/-- C8, as stated, fails: a key loaded from the persisted document under the URL
`https://x/old` holds the URL constructed from the bucket metadata at the end of the run of
`src/main.go` that processes its asset. -/
theorem persisted_url_is_overwritten :
    Releases.leaf (Root.setup oldSys (init ["demo/v1.0.0/demo.zip"])).state.data
      "demo" "v1.0.0" "demo.zip" = some "https://x/old" ∧
    Releases.leaf (Root.main demoStore oldSys demoClient ["demo"]
      (init ["demo/v1.0.0/demo.zip"])).state.data "demo" "v1.0.0" "demo.zip"
      = some "https://bucket.pek3a.qingstor.com/demo/v1.0.0/demo.zip" ∧
    "https://bucket.pek3a.qingstor.com/demo/v1.0.0/demo.zip" ≠ "https://x/old" :=
  ⟨rfl, rfl, by decide⟩

/-- C8, amended: through `listAssets` of both files, whether it returns or the run stops in
it, no key of the index is removed, and a key holds at the end the URL it held at the start
or the URL constructed for it from the bucket name, the location and its target path; so a
key that holds its constructed URL, as every key recorded earlier in the call does, keeps
it. -/
theorem listAssets_keeps_index {σ : Type} (S : Storager σ) (sys : Sys) (client : Client)
    (repo : String) (release : RepositoryRelease) (ch : Cmd.Channel) (st : State σ)
    (p v f u : String) (h : Releases.leaf st.data p v f = some u) :
    (Releases.leaf (Root.listAssets S sys client repo release st).state.data p v f = some u ∨
      ∃ m location, S.metadata st.store = .ok m ∧ m.location = some location ∧
        Releases.leaf (Root.listAssets S sys client repo release st).state.data p v f
          = some (publicURL m.name location (targetPath p v f))) ∧
    (∀ r, Cmd.listAssets S sys client repo ch st = some r →
      (Releases.leaf r.state.data p v f = some u ∨
        ∃ m location, S.metadata st.store = .ok m ∧ m.location = some location ∧
          Releases.leaf r.state.data p v f
            = some (publicURL m.name location (targetPath p v f)))) := by
  constructor
  · unfold Root.listAssets
    cases hm : S.metadata st.store with
    | error e => exact Or.inl h
    | ok m =>
      simp only
      cases hl : m.location with
      | none => exact Or.inl h
      | some location =>
        simp only
        cases client.listReleaseAssets "qingstor" repo release.id 100 with
        | error e => exact Or.inl h
        | ok assets =>
          rcases forAssets_keeps S sys m location repo release assets st p v f u h with h1 | h1
          · exact Or.inl h1
          · exact Or.inr ⟨m, location, rfl, hl, h1⟩
  · intro r hr
    unfold Cmd.listAssets at hr
    cases hm : S.metadata st.store with
    | error e =>
      simp only [hm, Option.some.injEq] at hr
      subst hr
      exact Or.inl h
    | ok m =>
      simp only [hm] at hr
      cases hl : m.location with
      | none =>
        simp only [hl, Option.some.injEq] at hr
        subst hr
        exact Or.inl h
      | some location =>
        simp only [hl] at hr
        have hk := Cmd.forReleases_keeps S sys client m location repo ch.sent st p v f u h
        cases hfr : Cmd.forReleases S sys client m location repo ch.sent st with
        | halt e st1 =>
          simp only [hfr, Option.some.injEq] at hr
          subst hr
          rw [hfr] at hk
          rcases hk with h1 | h1
          · exact Or.inl h1
          · exact Or.inr ⟨m, location, rfl, hl, h1⟩
        | ok a st1 =>
          simp only [hfr] at hr
          rw [hfr] at hk
          have hk1 : Releases.leaf st1.data p v f = some u ∨
              ∃ m1 l1, Except.ok m = Except.ok (ε := String) m1 ∧ m1.location = some l1 ∧
                Releases.leaf st1.data p v f
                  = some (publicURL m1.name l1 (targetPath p v f)) := by
            rcases hk with h1 | h1
            · exact Or.inl h1
            · exact Or.inr ⟨m, location, rfl, hl, h1⟩
          cases hend : ch.ending with
          | running => simp [hend] at hr
          | closed =>
            simp only [hend, Option.some.injEq] at hr
            subst hr
            exact hk1
          | fatal msg =>
            simp only [hend, Option.some.injEq] at hr
            subst hr
            exact hk1

/-- The witness of C8, amended: the key of `demo.zip`, held under `https://x/old`, through
`listAssets` of both files. -/
theorem listAssets_keeps_index_witness :
    Releases.leaf oldState.data "demo" "v1.0.0" "demo.zip" = some "https://x/old" ∧
    (Releases.leaf (Root.listAssets demoStore demoSys demoClient "demo" demoRelease
        oldState).state.data "demo" "v1.0.0" "demo.zip" = some "https://x/old" ∨
      ∃ m location, demoStore.metadata oldState.store = .ok m ∧ m.location = some location ∧
        Releases.leaf (Root.listAssets demoStore demoSys demoClient "demo" demoRelease
          oldState).state.data "demo" "v1.0.0" "demo.zip"
          = some (publicURL m.name location (targetPath "demo" "v1.0.0" "demo.zip"))) ∧
    (∀ r, Cmd.listAssets demoStore demoSys demoClient "demo"
        (Cmd.listReleases demoClient "demo" 1) oldState = some r →
      (Releases.leaf r.state.data "demo" "v1.0.0" "demo.zip" = some "https://x/old" ∨
        ∃ m location, demoStore.metadata oldState.store = .ok m ∧ m.location = some location ∧
          Releases.leaf r.state.data "demo" "v1.0.0" "demo.zip"
            = some (publicURL m.name location (targetPath "demo" "v1.0.0" "demo.zip")))) :=
  ⟨rfl, listAssets_keeps_index demoStore demoSys demoClient "demo" demoRelease
    (Cmd.listReleases demoClient "demo" 1) oldState "demo" "v1.0.0" "demo.zip" "https://x/old"
    rfl⟩

end Qingstor
